import Mathlib

/-!
Verification of the stack-reconciliation core of `cfn` (`src/node_modules/cfn/index.js`)
against its natural-language specification.

The JavaScript core is shallowly embedded: status enumerations are string lists,
CloudFormation events are records, `_processEvents` / `getAllStackEvents` /
`outputNewStackEvents` / `normalizeParams` / `cleanup` become pure Lean functions
over explicit state.  Timestamps (milliseconds since the epoch) are modelled as `Int`.
-/

namespace Cfn

/-- Status strings treated as operation success (index.js `success`, lines 30-34). -/
def success : List String :=
  ["CREATE_COMPLETE", "DELETE_COMPLETE", "UPDATE_COMPLETE"]

/-- Status strings treated as operation failure (index.js `failed`, lines 36-44). -/
def failed : List String :=
  ["ROLLBACK_FAILED", "ROLLBACK_IN_PROGRESS", "ROLLBACK_COMPLETE",
   "UPDATE_ROLLBACK_IN_PROGRESS", "UPDATE_ROLLBACK_COMPLETE",
   "UPDATE_FAILED", "DELETE_FAILED"]

/-- Status strings meaning the stack exists for the create-vs-update probe
(index.js `exists`, lines 46-51). -/
def existsStatuses : List String :=
  ["CREATE_COMPLETE", "UPDATE_COMPLETE", "ROLLBACK_COMPLETE", "UPDATE_ROLLBACK_COMPLETE"]

/-- The StatusClassifier verdict of the specification. -/
inductive StatusClass where
  | pending
  | success
  | failure
deriving DecidableEq, Repr

/-- The spec's `classify`: the classification a raw status code receives in
`_processEvents`' terminal decision, which consults the `failed` and `success`
enumerations (index.js lines 164-172). -/
def classify (s : String) : StatusClass :=
  if s ∈ failed then .failure
  else if s ∈ success then .success
  else .pending

/-- One CloudFormation stack event, as consumed by `_processEvents`
(fields `EventId`, `ResourceType`, `LogicalResourceId`, `ResourceStatus`,
`ResourceStatusReason`, `Timestamp`). -/
structure Event where
  eventId : String
  resourceType : String
  logicalResourceId : String
  resourceStatus : String
  resourceStatusReason : Option String
  timestamp : Int
deriving DecidableEq, Repr

/-- The Poller's per-tick verdict: keep running, resolve, or reject with the
failing event's `ResourceStatusReason`. -/
inductive Outcome where
  | running
  | succeeded
  | failedWith (reason : Option String)
deriving DecidableEq, Repr

/-- Lodash `_.sortBy(events, 'Timestamp')`: a stable sort ascending by timestamp
(stable sorting has a unique result, so insertion sort models lodash exactly). -/
def sortByTimestamp (events : List Event) : List Event :=
  List.insertionSort (fun a b => a.timestamp ≤ b.timestamp) events

/-- The resource type of a top-level stack event. -/
def stackResourceType : String := "AWS::CloudFormation::Stack"

/-- The terminal decision of `_processEvents` (index.js lines 156-172), applied to
`_.last(events)` after the ascending sort: only an `AWS::CloudFormation::Stack`
event whose `LogicalResourceId` equals the stack name can end the operation; a
failed status with `Timestamp ≥ startedAt` rejects, a success status — or a failed
status predating `startedAt` — resolves. -/
def terminalDecision (name : String) (startedAt : Int) : Option Event → Outcome
  | none => .running
  | some e =>
    if e.resourceType = stackResourceType ∧ e.logicalResourceId = name then
      if e.resourceStatus ∈ failed ∧ startedAt ≤ e.timestamp then
        .failedWith e.resourceStatusReason
      else if e.resourceStatus ∈ success ∨ (e.resourceStatus ∈ failed ∧ e.timestamp < startedAt) then
        .succeeded
      else .running
    else .running

/-- The function `_processEvents` (index.js lines 139-174): sort the batch ascending by
timestamp and apply the terminal decision to the last (newest) event. -/
def processEvents (name : String) (startedAt : Int) (events : List Event) : Outcome :=
  terminalDecision name startedAt (sortByTimestamp events).getLast?

/-- The EventLedger `pull` for one tick: `outputNewStackEvents` filters out ids
already in `displayedEvents` (index.js lines 217-222), `_processEvents` sorts the
remainder and marks every surfaced id (lines 140-142).  Returns the surfaced
batch (ascending by timestamp) and the grown surfaced-id set. -/
def newStackEvents (displayed : List String) (allEvents : List Event) : List Event :=
  sortByTimestamp (allEvents.filter (fun e => ¬ e.eventId ∈ displayed))

def pullEvents (displayed : List String) (allEvents : List Event) :
    List Event × List String :=
  (newStackEvents displayed allEvents,
   displayed ++ (newStackEvents displayed allEvents).map (·.eventId))

/-- One page of `describeStackEvents` output (`StackEvents`, `NextToken`). -/
structure Page where
  stackEvents : List Event
  nextToken : Option String
deriving DecidableEq, Repr

/-- The predicate `allRelevantEventsLoaded` (index.js lines 199-201): does the page contain an
event from before the current operation started? -/
def allRelevantEventsLoaded (startedAt : Int) (events : List Event) : Bool :=
  events.any (fun e => e.timestamp < startedAt)

/-- The pagination loop `getAllStackEvents` (index.js lines 177-197) over the remote log modelled as a
list of pages in fetch order.  Returns the accumulated events and the number of
pages fetched: after each page the code recurses exactly when a `NextToken` was
returned and `allRelevantEventsLoaded` is false. -/
def getAllStackEvents (startedAt : Int) : List Page → List Event × Nat
  | [] => ([], 0)
  | p :: rest =>
    if p.nextToken.isSome && !(allRelevantEventsLoaded startedAt p.stackEvents) then
      (p.stackEvents ++ (getAllStackEvents startedAt rest).1,
       (getAllStackEvents startedAt rest).2 + 1)
    else (p.stackEvents, 1)

/-- Outcome of the remote `createStack`/`updateStack` call. -/
inductive CallResult where
  | ok
  | noUpdates
  | otherError (msg : String)
deriving DecidableEq, Repr

/-- The function `processCfStack` (index.js lines 246-259): on update, a
"No updates are to be performed" rejection is swallowed (logged) and the promise
resolves; every other rejection propagates.  On create every rejection propagates. -/
def processCfStack (action : String) (res : CallResult) : Except String Unit :=
  if action = "update" then
    match res with
    | .ok => .ok ()
    | .noUpdates => .ok ()
    | .otherError m => .error m
  else
    match res with
    | .ok => .ok ()
    | .noUpdates => .error "No updates are to be performed"
    | .otherError m => .error m

/-- The tail of `processStack` (index.js lines 353-369): after `processCfStack`
resolves, `async ? Promise.resolve() : checkStack(action, name)`.  Returns
`.ok polled` where `polled` records whether `checkStack` (event polling) is
invoked, or the propagated error. -/
def processStackPolls (asyncMode : Bool) (action : String) (res : CallResult) :
    Except String Bool :=
  match processCfStack action res with
  | .error m => .error m
  | .ok _ => .ok (!asyncMode)

end Cfn

namespace Cfn

/- Parameter normalization (`normalizeParams`, index.js lines 270-291). -/

/-- Lodash `_.toLower`, written structurally so it evaluates by `decide`;
`jsToLower_eq_toLower` below shows it agrees with `String.toLower`. -/
def jsToLower (s : String) : String := ⟨s.data.map Char.toLower⟩

/-- A JavaScript plain object with string values, as an ordered list of
key-value pairs with pairwise-distinct keys. -/
abbrev JsObj := List (String × String)

/-- Property read `o[k]`. -/
def objGet (o : JsObj) (k : String) : Option String :=
  (o.find? (fun q => q.1 == k)).map (·.2)

/-- Property write `o[k] = v`: overwrite in place when the key exists, else
append a new own property (JS insertion order). -/
def objSet (o : JsObj) (k v : String) : JsObj :=
  if o.any (fun q => q.1 == k) then o.map (fun q => if q.1 == k then (k, v) else q)
  else o ++ [(k, v)]

/-- One iteration of `_.keys(params).forEach(k => { params[_.toLower(k)] = params[k] })`. -/
def lowerStep (o : JsObj) (k : String) : JsObj :=
  match objGet o k with
  | some v => objSet o (jsToLower k) v
  | none => o

/-- The whole key-lowering loop: iterate over the snapshot of the original keys,
mutating the object as the loop runs. -/
def lowerKeys (ps : JsObj) : JsObj :=
  (ps.map (·.1)).foldl lowerStep ps

/-- One declared template parameter from `getTemplateSummary`
(`ParameterKey`, `DefaultValue`). -/
structure TemplateParam where
  parameterKey : String
  defaultValue : Option String
deriving DecidableEq, Repr

/-- One normalized parameter sent to CloudFormation
(`ParameterKey`, `ParameterValue`). -/
structure CfParam where
  parameterKey : String
  parameterValue : Option String
deriving DecidableEq, Repr

/-- JavaScript `v || d` on an optional string: `undefined` and `""` are falsy. -/
def jsOrDefault (v d : Option String) : Option String :=
  match v with
  | some s => if s = "" then d else some s
  | none => d

/-- The function `normalizeParams` (index.js lines 270-291): empty caller map yields `[]`;
otherwise lower-case the caller keys in place, then map each declared template
parameter to its caller-supplied value looked up by lower-cased key, falling back
to the declared default when the lookup is `undefined` or falsy. -/
def normalizeParams (templateParams : List TemplateParam) (params : JsObj) :
    List CfParam :=
  if params.isEmpty then []
  else
    let mutated := lowerKeys params
    templateParams.map (fun p =>
      ⟨p.parameterKey, jsOrDefault (objGet mutated (jsToLower p.parameterKey)) p.defaultValue⟩)

/-- Case-insensitive first-match lookup, written from the spec's words
("use the caller's value if present (case-insensitively)"), for comparison with
the mutation-based lookup the code performs. -/
def specLookup (ps : JsObj) (key : String) : Option String :=
  (ps.find? (fun q => jsToLower q.1 == jsToLower key)).map (·.2)

end Cfn

namespace Cfn

/- Cleanup scanner (`cleanup`, index.js lines 433-479). -/

/-- One `StackSummary` from `listStacks` (`StackName`, `CreationTime` in ms). -/
structure StackSummary where
  stackName : String
  creationTime : Int
deriving DecidableEq, Repr

/-- The per-stack filter inside the listing loop: name matches the regex and
`CreationTime < now - minutesOld * ONE_MINUTE`. -/
def cleanupSurvivors (nameMatches : String → Bool) (now minutesOld : Int)
    (summaries : List StackSummary) : List StackSummary :=
  summaries.filter (fun s =>
    nameMatches s.stackName && decide (s.creationTime < now - minutesOld * 60000))

/-- Lodash `_.sortBy(stacks, ['CreationTime'])` followed by `_.take(·, limit)` when
`limit` is set (and truthy): the batch of stacks that will be deleted / reported. -/
def cleanupSelected (nameMatches : String → Bool) (now minutesOld : Int)
    (limit : Option Nat) (summaries : List StackSummary) : List StackSummary :=
  match limit with
  | some n =>
    if n ≠ 0 then
      (List.insertionSort (fun a b => a.creationTime ≤ b.creationTime)
        (cleanupSurvivors nameMatches now minutesOld summaries)).take n
    else
      List.insertionSort (fun a b => a.creationTime ≤ b.creationTime)
        (cleanupSurvivors nameMatches now minutesOld summaries)
  | none =>
    List.insertionSort (fun a b => a.creationTime ≤ b.creationTime)
      (cleanupSurvivors nameMatches now minutesOld summaries)

/-- The names that actually receive a `deleteStack` call: every selected stack,
unless `dryRun` (which only logs). -/
def cleanupDeletes (dryRun : Bool) (nameMatches : String → Bool) (now minutesOld : Int)
    (limit : Option Nat) (summaries : List StackSummary) : List String :=
  if dryRun then []
  else (cleanupSelected nameMatches now minutesOld limit summaries).map (·.stackName)

end Cfn

namespace Cfn

/-! Helper lemmas. -/

/-- The `success` and `failed` enumerations are disjoint. -/
theorem success_not_failed : ∀ s ∈ success, s ∉ failed := by decide

/-- Unfolded form of `Char.toLower` without the `let`. -/
theorem char_toLower_eq (c : Char) :
    c.toLower = if c.toNat ≥ 65 ∧ c.toNat ≤ 90 then Char.ofNat (c.toNat + 32) else c := rfl

theorem char_toNat_ofNat_of_valid {n : Nat} (h : n.isValidChar) :
    (Char.ofNat n).toNat = n := by
  unfold Char.ofNat
  rw [dif_pos h]
  rfl

/-- Lower-casing a character twice is the same as lower-casing it once. -/
theorem char_toLower_idem (c : Char) : c.toLower.toLower = c.toLower := by
  rw [char_toLower_eq c]
  by_cases h : c.toNat ≥ 65 ∧ c.toNat ≤ 90
  · rw [if_pos h, char_toLower_eq]
    have hv : (c.toNat + 32).isValidChar := Or.inl (by omega)
    have hval : (Char.ofNat (c.toNat + 32)).toNat = c.toNat + 32 :=
      char_toNat_ofNat_of_valid hv
    rw [if_neg (by rw [hval]; omega)]
  · rw [if_neg h, char_toLower_eq, if_neg h]

/-- The model's `jsToLower` agrees with `String.toLower`. -/
theorem jsToLower_eq_toLower (s : String) : jsToLower s = s.toLower :=
  (String.map_eq Char.toLower s).symm

/-- Lower-casing a string twice is the same as lower-casing it once. -/
theorem jsToLower_idem (s : String) : jsToLower (jsToLower s) = jsToLower s := by
  show (⟨(s.data.map Char.toLower).map Char.toLower⟩ : String) = ⟨s.data.map Char.toLower⟩
  rw [List.map_map]
  congr 1
  exact List.map_congr_left fun c _ => char_toLower_idem c

theorem find?_objSetMap_ne (o : JsObj) {k t : String} (v : String) (h : k ≠ t) :
    List.find? (fun q => q.1 == t)
      (o.map (fun q => if (q.1 == k) = true then (k, v) else q)) =
      List.find? (fun q => q.1 == t) o := by
  induction o with
  | nil => rfl
  | cons q o ih =>
    rw [List.map_cons]
    by_cases hqt : q.1 = t
    · have hqk : (q.1 == k) = false := by
        refine beq_eq_false_iff_ne.mpr ?_
        intro he
        exact h (by rw [← he, hqt])
      rw [hqk]
      simp only [Bool.false_eq_true, if_false]
      rw [List.find?_cons_of_pos _ (by simp [hqt]),
        List.find?_cons_of_pos _ (by simp [hqt])]
    · by_cases hqk : q.1 = k
      · rw [show (q.1 == k) = true from by simp [hqk]]
        simp only [if_true]
        rw [List.find?_cons_of_neg _ (by simp [h]),
          List.find?_cons_of_neg _ (by simp [hqt]), ih]
      · rw [show (q.1 == k) = false from by simp [hqk]]
        simp only [Bool.false_eq_true, if_false]
        rw [List.find?_cons_of_neg _ (by simp [hqt]),
          List.find?_cons_of_neg _ (by simp [hqt]), ih]

theorem find?_objSetMap_self (o : JsObj) (k v : String)
    (ha : o.any (fun q => q.1 == k) = true) :
    List.find? (fun q => q.1 == k)
      (o.map (fun q => if (q.1 == k) = true then (k, v) else q)) = some (k, v) := by
  induction o with
  | nil => simp at ha
  | cons q o ih =>
    rw [List.map_cons]
    by_cases hqk : q.1 = k
    · rw [show (q.1 == k) = true from by simp [hqk]]
      simp only [if_true]
      exact List.find?_cons_of_pos _ (by simp)
    · rw [show (q.1 == k) = false from by simp [hqk]]
      simp only [Bool.false_eq_true, if_false]
      rw [List.find?_cons_of_neg _ (by simp [hqk])]
      exact ih (by simpa [hqk] using ha)

theorem objGet_objSet_ne (o : JsObj) {k t : String} (v : String) (h : k ≠ t) :
    objGet (objSet o k v) t = objGet o t := by
  unfold objGet objSet
  by_cases ha : o.any (fun q => q.1 == k)
  · rw [if_pos ha, find?_objSetMap_ne o v h]
  · rw [if_neg ha, List.find?_append]
    have hone : List.find? (fun q => q.1 == t) [(k, v)] = none := by simp [h]
    rw [hone]
    cases List.find? (fun q => q.1 == t) o <;> rfl

theorem objGet_objSet_self (o : JsObj) (k v : String) :
    objGet (objSet o k v) k = some v := by
  unfold objGet objSet
  by_cases ha : o.any (fun q => q.1 == k)
  · rw [if_pos ha, find?_objSetMap_self o k v ha]
    rfl
  · rw [if_neg ha, List.find?_append]
    have hno : List.find? (fun q => q.1 == k) o = none := by
      rw [List.find?_eq_none]
      intro q hq
      simp only [List.any_eq_true, not_exists, not_and] at ha
      simpa using ha q hq
    rw [hno]
    simp

theorem objGet_eq_none (o : JsObj) {k : String} (h : ∀ q ∈ o, q.1 ≠ k) :
    objGet o k = none := by
  unfold objGet
  rw [List.find?_eq_none.mpr (by intro q hq; simpa using h q hq)]
  rfl

theorem objGet_of_mem_nodup {o : JsObj} {k v : String}
    (hnd : (o.map (·.1)).Nodup) (hm : (k, v) ∈ o) : objGet o k = some v := by
  unfold objGet
  induction o with
  | nil => simp at hm
  | cons q o ih =>
    rcases List.mem_cons.mp hm with hq | hq
    · rw [← hq, List.find?_cons_of_pos _ (by simp)]
      rfl
    · have hk : k ∈ o.map (·.1) := List.mem_map.mpr ⟨(k, v), hq, rfl⟩
      have hq1 : q.1 ≠ k := by
        intro he
        have hn := (List.nodup_cons.mp hnd).1
        have : q.1 ∈ o.map (·.1) := by rw [he]; exact hk
        exact hn this
      rw [List.find?_cons_of_neg _ (by simp [hq1])]
      exact ih (List.nodup_cons.mp hnd).2 hq

theorem lowerStep_eq_of_get (o : JsObj) (k v : String) (h : objGet o k = some v) :
    lowerStep o k = objSet o (jsToLower k) v := by
  unfold lowerStep
  rw [h]

/-- Folding the key-lowering loop over keys none of which lower to `t` leaves
property `t` unchanged. -/
theorem objGet_foldl_lowerStep (ks : List String) (o : JsObj) (t : String)
    (h : ∀ k ∈ ks, jsToLower k ≠ t) :
    objGet (List.foldl lowerStep o ks) t = objGet o t := by
  induction ks generalizing o with
  | nil => rfl
  | cons k ks ih =>
    rw [List.foldl_cons, ih _ (fun k' hk' => h k' (List.mem_cons_of_mem _ hk'))]
    unfold lowerStep
    cases hg : objGet o k with
    | none => rfl
    | some v => exact objGet_objSet_ne o v (h k (List.mem_cons_self _ _))

/-- The mutation-based lookup `normalizeParams` performs equals the
case-insensitive first-match lookup of the specification, provided the caller\'s
keys are pairwise distinct after lower-casing. -/
theorem objGet_lowerKeys (ps : JsObj)
    (hnd : (ps.map (fun q => jsToLower q.1)).Nodup) (key : String) :
    objGet (lowerKeys ps) (jsToLower key) =
      (ps.find? (fun q => jsToLower q.1 == jsToLower key)).map (·.2) := by
  have hmapmap : ps.map (fun q => jsToLower q.1) = (ps.map (·.1)).map jsToLower := by
    rw [List.map_map]; rfl
  have hkeysnd : (ps.map (·.1)).Nodup := List.Nodup.of_map jsToLower (hmapmap ▸ hnd)
  cases hfind : ps.find? (fun q => jsToLower q.1 == jsToLower key) with
  | none =>
    have hnone : ∀ q ∈ ps, jsToLower q.1 ≠ jsToLower key := by
      intro q hq
      have hf := List.find?_eq_none.mp hfind q hq
      simpa using hf
    show objGet (lowerKeys ps) (jsToLower key) = none
    unfold lowerKeys
    rw [objGet_foldl_lowerStep _ _ _ (by
      intro k hk
      rcases List.mem_map.mp hk with ⟨q, hq, rfl⟩
      exact hnone q hq)]
    exact objGet_eq_none ps (by
      intro q hq he
      exact hnone q hq (by rw [he, jsToLower_idem]))
  | some qp =>
    obtain ⟨k₀, v⟩ := qp
    have hmem : (k₀, v) ∈ ps := List.mem_of_find?_eq_some hfind
    have hk₀ : jsToLower k₀ = jsToLower key := by
      have hs := List.find?_some hfind
      simpa using hs
    have hk₀mem : k₀ ∈ ps.map (·.1) := List.mem_map.mpr ⟨(k₀, v), hmem, rfl⟩
    obtain ⟨ks₁, ks₂, hsplit⟩ := List.append_of_mem hk₀mem
    have hlnd : ((ks₁.map jsToLower) ++ jsToLower k₀ :: ks₂.map jsToLower).Nodup := by
      have heq : ps.map (fun q => jsToLower q.1) =
          (ks₁.map jsToLower) ++ jsToLower k₀ :: ks₂.map jsToLower := by
        rw [hmapmap, hsplit, List.map_append, List.map_cons]
      exact heq ▸ hnd
    have hnot₁ : jsToLower k₀ ∉ ks₁.map jsToLower := by
      have hd := (List.nodup_append.mp hlnd).2.2
      intro hmem1
      exact hd hmem1 (List.mem_cons_self _ _)
    have hnot₂ : jsToLower k₀ ∉ ks₂.map jsToLower := by
      have hc := (List.nodup_append.mp hlnd).2.1
      exact (List.nodup_cons.mp hc).1
    have h1 : objGet (List.foldl lowerStep ps ks₁) k₀ = some v := by
      rw [objGet_foldl_lowerStep ks₁ ps k₀ (by
        intro k hk he
        have hkl : jsToLower k = jsToLower k₀ := by
          rw [← he, jsToLower_idem]
        exact hnot₁ (hkl ▸ List.mem_map.mpr ⟨k, hk, rfl⟩))]
      exact objGet_of_mem_nodup hkeysnd hmem
    have hstep : lowerStep (List.foldl lowerStep ps ks₁) k₀ =
        objSet (List.foldl lowerStep ps ks₁) (jsToLower k₀) v :=
      lowerStep_eq_of_get _ _ _ h1
    have h2 : ∀ k ∈ ks₂, jsToLower k ≠ jsToLower key := by
      intro k hk he
      rw [← hk₀] at he
      exact hnot₂ (he ▸ List.mem_map.mpr ⟨k, hk, rfl⟩)
    show objGet (lowerKeys ps) (jsToLower key) = some v
    unfold lowerKeys
    rw [hsplit, List.foldl_append, List.foldl_cons, objGet_foldl_lowerStep ks₂ _ _ h2,
      hstep, ← hk₀]
    exact objGet_objSet_self _ _ _


/-! Case-analysis lemmas for the terminal decision. -/

theorem terminalDecision_failedWith {name : String} {startedAt : Int} {o : Option Event}
    {r : Option String} (h : terminalDecision name startedAt o = .failedWith r) :
    ∃ e, o = some e ∧ e.resourceType = stackResourceType ∧ e.logicalResourceId = name ∧
      e.resourceStatus ∈ failed ∧ startedAt ≤ e.timestamp ∧ r = e.resourceStatusReason := by
  cases o with
  | none => simp [terminalDecision] at h
  | some e =>
    refine ⟨e, rfl, ?_⟩
    simp only [terminalDecision] at h
    split_ifs at h with h1 h2 h3
    cases h
    exact ⟨h1.1, h1.2, h2.1, h2.2, rfl⟩

theorem terminalDecision_succeeded_of_failed_pre {name : String} {startedAt : Int} {e : Event}
    (hty : e.resourceType = stackResourceType) (hid : e.logicalResourceId = name)
    (hf : e.resourceStatus ∈ failed) (hlt : e.timestamp < startedAt) :
    terminalDecision name startedAt (some e) = .succeeded := by
  simp only [terminalDecision]
  rw [if_pos ⟨hty, hid⟩, if_neg (fun hc => absurd hc.2 (not_le.mpr hlt)),
    if_pos (Or.inr ⟨hf, hlt⟩)]

theorem terminalDecision_succeeded_of_success {name : String} {startedAt : Int} {e : Event}
    (hty : e.resourceType = stackResourceType) (hid : e.logicalResourceId = name)
    (hs : e.resourceStatus ∈ success) :
    terminalDecision name startedAt (some e) = .succeeded := by
  simp only [terminalDecision]
  rw [if_pos ⟨hty, hid⟩, if_neg (fun hc => success_not_failed _ hs hc.1),
    if_pos (Or.inl hs)]

theorem terminalDecision_failed_post {name : String} {startedAt : Int} {e : Event}
    (hty : e.resourceType = stackResourceType) (hid : e.logicalResourceId = name)
    (hf : e.resourceStatus ∈ failed) (hge : startedAt ≤ e.timestamp) :
    terminalDecision name startedAt (some e) = .failedWith e.resourceStatusReason := by
  simp only [terminalDecision]
  rw [if_pos ⟨hty, hid⟩, if_pos ⟨hf, hge⟩]

theorem terminalDecision_not_running_auth {name : String} {startedAt : Int} {o : Option Event}
    (h : terminalDecision name startedAt o ≠ .running) :
    ∃ e, o = some e ∧ e.resourceType = stackResourceType ∧ e.logicalResourceId = name := by
  cases o with
  | none => exact absurd rfl h
  | some e =>
    refine ⟨e, rfl, ?_⟩
    by_contra hc
    exact h (by simp only [terminalDecision]; rw [if_neg hc])

/-- The last element of the sorted batch is an element of the batch. -/
theorem getLast?_sortByTimestamp_mem {events : List Event} {e : Event}
    (h : (sortByTimestamp events).getLast? = some e) : e ∈ events := by
  have hm : e ∈ sortByTimestamp events := by
    rcases List.getLast?_eq_some_iff.mp h with ⟨ys, hys⟩
    rw [hys]
    simp
  unfold sortByTimestamp at hm
  exact (List.mem_insertionSort _).mp hm

/-! C1. -/

/-- C1 (corrected): every status in the `failed` enumeration classifies as
failure, but `CREATE_FAILED` is not a member of that enumeration and classifies
as pending. -/
theorem C1_failed_enumeration :
    (∀ s ∈ failed, classify s = .failure) ∧
    classify "CREATE_FAILED" = .pending ∧ "CREATE_FAILED" ∉ failed :=
  ⟨by decide, by decide, by decide⟩

/-- C1 witness: `UPDATE_FAILED` is in the failure enumeration and classifies as
failure. -/
theorem C1_failed_enumeration_witness : classify "UPDATE_FAILED" = StatusClass.failure :=
  C1_failed_enumeration.1 "UPDATE_FAILED" (by decide)

/-- C1 counterexample: `CREATE_FAILED` does not classify as failure, is not in
the failure enumeration, and an authoritative post-start `CREATE_FAILED` event
leaves the Poller running rather than failing it. -/
theorem C1_counterexample :
    "CREATE_FAILED" ∉ failed ∧ classify "CREATE_FAILED" ≠ .failure ∧
    processEvents "demo" 0
      [⟨"e1", "AWS::CloudFormation::Stack", "demo", "CREATE_FAILED", none, 5⟩] =
      .running := by decide

/-! C2. -/

/-- C2 (corrected): a failure transition only arises from a final batch event
with timestamp ≥ startedAt; an authoritative failure-status event predating
startedAt resolves the operation successfully; and an authoritative
success-status event resolves it successfully regardless of its timestamp
(including timestamps before startedAt). -/
theorem C2_pre_start_events (name : String) (startedAt : Int) (events : List Event) :
    (∀ r, processEvents name startedAt events = .failedWith r →
      ∃ e, (sortByTimestamp events).getLast? = some e ∧ startedAt ≤ e.timestamp) ∧
    (∀ e, (sortByTimestamp events).getLast? = some e →
      e.resourceType = stackResourceType → e.logicalResourceId = name →
      e.resourceStatus ∈ failed → e.timestamp < startedAt →
      processEvents name startedAt events = .succeeded) ∧
    (∀ e, (sortByTimestamp events).getLast? = some e →
      e.resourceType = stackResourceType → e.logicalResourceId = name →
      e.resourceStatus ∈ success →
      processEvents name startedAt events = .succeeded) := by
  refine ⟨?_, ?_, ?_⟩
  · intro r h
    have h' : terminalDecision name startedAt (sortByTimestamp events).getLast? =
        .failedWith r := h
    rcases terminalDecision_failedWith h' with ⟨e, he, _, _, _, hts, _⟩
    exact ⟨e, he, hts⟩
  · intro e hlast hty hid hf hlt
    unfold processEvents
    rw [hlast]
    exact terminalDecision_succeeded_of_failed_pre hty hid hf hlt
  · intro e hlast hty hid hs
    unfold processEvents
    rw [hlast]
    exact terminalDecision_succeeded_of_success hty hid hs

/-- C2 witness: an authoritative `ROLLBACK_COMPLETE` event predating the
operation start resolves the operation successfully. -/
theorem C2_pre_start_events_witness :
    processEvents "demo" 10
      [⟨"e1", "AWS::CloudFormation::Stack", "demo", "ROLLBACK_COMPLETE", none, 5⟩] =
      Outcome.succeeded :=
  (C2_pre_start_events "demo" 10
      [⟨"e1", "AWS::CloudFormation::Stack", "demo", "ROLLBACK_COMPLETE", none, 5⟩]).2.1
    ⟨"e1", "AWS::CloudFormation::Stack", "demo", "ROLLBACK_COMPLETE", none, 5⟩
    (by decide) rfl rfl (by decide) (by decide)

/-- C2 counterexample: an authoritative event with a success status and a
timestamp strictly before startedAt resolves the operation — the claim says it
must not. -/
theorem C2_counterexample :
    (5 : Int) < 10 ∧ "CREATE_COMPLETE" ∈ success ∧
    processEvents "demo" 10
      [⟨"e1", "AWS::CloudFormation::Stack", "demo", "CREATE_COMPLETE", none, 5⟩] =
      .succeeded := by decide

/-! C3. -/

/-- C3 (corrected): the "No updates are to be performed" rejection of an update
is swallowed and the call resolves, while any other update error propagates; but
polling is skipped only in async mode — in the default synchronous mode
`processStack` still invokes `checkStack` after the swallowed error. -/
theorem C3_no_updates_swallowed :
    processCfStack "update" CallResult.noUpdates = Except.ok () ∧
    (∀ m, processCfStack "update" (CallResult.otherError m) = Except.error m) ∧
    processStackPolls true "update" CallResult.noUpdates = Except.ok false ∧
    processStackPolls false "update" CallResult.noUpdates = Except.ok true :=
  ⟨rfl, fun _ => rfl, rfl, rfl⟩

/-- C3 counterexample: in synchronous mode a swallowed "no updates" error is
followed by event polling (`checkStack` is invoked, `polled = true`) — the
claim says no polling is performed. -/
theorem C3_counterexample :
    processCfStack "update" CallResult.noUpdates = Except.ok () ∧
    processStackPolls false "update" CallResult.noUpdates = Except.ok true :=
  ⟨rfl, rfl⟩

/-! C4. -/

/-- C4 (corrected): the Poller's terminal decision consults only the final
(greatest-timestamp) event of the tick's batch: if that final event is
authoritative then a post-start failure status rejects, a success status
resolves, and a pre-start failure status resolves. -/
theorem C4_last_event_decides (name : String) (startedAt : Int) (events : List Event)
    (e : Event) (hlast : (sortByTimestamp events).getLast? = some e)
    (hty : e.resourceType = stackResourceType) (hid : e.logicalResourceId = name) :
    (e.resourceStatus ∈ failed → startedAt ≤ e.timestamp →
      processEvents name startedAt events = .failedWith e.resourceStatusReason) ∧
    (e.resourceStatus ∈ success → processEvents name startedAt events = .succeeded) ∧
    (e.resourceStatus ∈ failed → e.timestamp < startedAt →
      processEvents name startedAt events = .succeeded) := by
  refine ⟨?_, ?_, ?_⟩
  · intro hf hge
    unfold processEvents
    rw [hlast]
    exact terminalDecision_failed_post hty hid hf hge
  · intro hs
    unfold processEvents
    rw [hlast]
    exact terminalDecision_succeeded_of_success hty hid hs
  · intro hf hlt
    unfold processEvents
    rw [hlast]
    exact terminalDecision_succeeded_of_failed_pre hty hid hf hlt

/-- C4 witness: an authoritative `UPDATE_ROLLBACK_COMPLETE` event in last
position with timestamp after start fails the operation with its reason. -/
theorem C4_last_event_decides_witness :
    processEvents "demo" 10
      [⟨"e1", "AWS::CloudFormation::Stack", "demo", "UPDATE_ROLLBACK_COMPLETE",
        some "boom", 20⟩] = Outcome.failedWith (some "boom") :=
  (C4_last_event_decides "demo" 10
      [⟨"e1", "AWS::CloudFormation::Stack", "demo", "UPDATE_ROLLBACK_COMPLETE",
        some "boom", 20⟩]
      ⟨"e1", "AWS::CloudFormation::Stack", "demo", "UPDATE_ROLLBACK_COMPLETE",
        some "boom", 20⟩
      (by decide) rfl rfl).1 (by decide) (by decide)

/-- C4 counterexample: a batch containing an authoritative success event with
timestamp ≥ startedAt in non-last position (a later non-authoritative event
follows) leaves the Poller running on that tick — the claim says the operation
ends. -/
theorem C4_counterexample :
    ("CREATE_COMPLETE" ∈ success ∧ (10 : Int) ≤ 20) ∧
    (⟨"e1", "AWS::CloudFormation::Stack", "demo", "CREATE_COMPLETE", none, 20⟩ : Event) ∈
      ([⟨"e1", "AWS::CloudFormation::Stack", "demo", "CREATE_COMPLETE", none, 20⟩,
        ⟨"e2", "AWS::S3::Bucket", "Bucket", "CREATE_IN_PROGRESS", none, 30⟩] : List Event) ∧
    processEvents "demo" 10
      [⟨"e1", "AWS::CloudFormation::Stack", "demo", "CREATE_COMPLETE", none, 20⟩,
       ⟨"e2", "AWS::S3::Bucket", "Bucket", "CREATE_IN_PROGRESS", none, 30⟩] =
      Outcome.running := by decide

/-! C5. -/

/-- C5 (confirmed): a terminal transition only ever comes from a final event
whose resourceType is the top-level stack kind and whose logicalId equals the
target name; in particular, if every event of the batch has a logicalId
different from the target name, the Poller stays running. -/
theorem C5_nested_children_ignored (name : String) (startedAt : Int) (events : List Event) :
    (processEvents name startedAt events ≠ .running →
      ∃ e, (sortByTimestamp events).getLast? = some e ∧
        e.resourceType = stackResourceType ∧ e.logicalResourceId = name) ∧
    ((∀ e ∈ events, e.logicalResourceId ≠ name) →
      processEvents name startedAt events = .running) := by
  constructor
  · intro h
    have h' : terminalDecision name startedAt (sortByTimestamp events).getLast? ≠ .running := h
    exact terminalDecision_not_running_auth h'
  · intro h
    by_contra hr
    have h' : terminalDecision name startedAt (sortByTimestamp events).getLast? ≠ .running := hr
    rcases terminalDecision_not_running_auth h' with ⟨e, he, _, hid⟩
    exact h e (getLast?_sortByTimestamp_mem he) hid

/-- C5 witness: a nested child stack's terminal event (logicalId ≠ target name)
leaves the Poller running. -/
theorem C5_nested_children_ignored_witness :
    processEvents "demo" 10
      [⟨"e1", "AWS::CloudFormation::Stack", "demo-child", "CREATE_COMPLETE", none, 20⟩] =
      Outcome.running :=
  (C5_nested_children_ignored "demo" 10
      [⟨"e1", "AWS::CloudFormation::Stack", "demo-child", "CREATE_COMPLETE", none, 20⟩]).2
    (by decide)

/-! C6. -/

/-- Events returned by a pull come from the fetched log and were not yet surfaced. -/
theorem mem_pullEvents_fst {displayed : List String} {a : List Event} {e : Event}
    (h : e ∈ (pullEvents displayed a).1) : e ∈ a ∧ e.eventId ∉ displayed := by
  have hm : e ∈ newStackEvents displayed a := h
  unfold newStackEvents sortByTimestamp at hm
  rw [List.mem_insertionSort] at hm
  have hf := List.mem_filter.mp hm
  refine ⟨hf.1, ?_⟩
  simpa using hf.2

/-- Every event surfaced by a pull has its id recorded in the grown surfaced set. -/
theorem eventId_mem_pullEvents_snd {displayed : List String} {a : List Event} {e : Event}
    (h : e ∈ (pullEvents displayed a).1) : e.eventId ∈ (pullEvents displayed a).2 :=
  List.mem_append_right _ (List.mem_map.mpr ⟨e, h, rfl⟩)

/-- C6 (confirmed): the surfaced-id set grows monotonically across a pull; a pull
never returns an event whose id is already in the surfaced set; and an event
surfaced by one pull is never returned again by the next pull, even when the
later page fetch returns it again. -/
theorem C6_pull_dedup (displayed : List String) (a b : List Event) :
    (∀ x ∈ displayed, x ∈ (pullEvents displayed a).2) ∧
    (∀ i ∈ displayed, ∀ e ∈ (pullEvents displayed a).1, e.eventId ≠ i) ∧
    (∀ e ∈ (pullEvents displayed a).1,
      ∀ e2 ∈ (pullEvents (pullEvents displayed a).2 b).1, e2.eventId ≠ e.eventId) := by
  refine ⟨?_, ?_, ?_⟩
  · intro x hx
    exact List.mem_append_left _ hx
  · intro i hi e he heq
    exact (mem_pullEvents_fst he).2 (heq.symm ▸ hi)
  · intro e he e2 he2 heq
    exact (mem_pullEvents_fst he2).2 (heq.symm ▸ eventId_mem_pullEvents_snd he)

/-- C6 witness: with id `e1` already surfaced, a pull over a log still containing
`e1` returns only the fresh event `e2`, whose id differs from `e1`. -/
theorem C6_pull_dedup_witness :
    (⟨"e2", "AWS::CloudFormation::Stack", "demo", "CREATE_COMPLETE", none, 2⟩ : Event).eventId ≠
      "e1" :=
  (C6_pull_dedup ["e1"]
      [⟨"e1", "AWS::CloudFormation::Stack", "demo", "CREATE_IN_PROGRESS", none, 1⟩,
       ⟨"e2", "AWS::CloudFormation::Stack", "demo", "CREATE_COMPLETE", none, 2⟩] []).2.1
    "e1" (by decide)
    ⟨"e2", "AWS::CloudFormation::Stack", "demo", "CREATE_COMPLETE", none, 2⟩ (by decide)

/-! C7. -/

/-- Fetching a non-empty page list fetches at least one page. -/
theorem getAllStackEvents_snd_pos (startedAt : Int) (p : Page) (rest : List Page) :
    1 ≤ (getAllStackEvents startedAt (p :: rest)).2 := by
  simp only [getAllStackEvents]
  split
  · simp
  · simp

/-- The boolean continuation condition of `getAllStackEvents`, as a proposition. -/
theorem continue_cond_iff (startedAt : Int) (p : Page) :
    (p.nextToken.isSome && !(allRelevantEventsLoaded startedAt p.stackEvents)) = true ↔
      (p.nextToken.isSome = true ∧ ∀ e ∈ p.stackEvents, ¬ e.timestamp < startedAt) := by
  simp [allRelevantEventsLoaded]

/-- C7 (confirmed): after fetching a page, the next page is requested if and only
if the page came with a `NextToken` and contained no event older than
`startedAt`; consequently, with page 1 all-new with a token and page 2 containing
a pre-start event, exactly two pages are fetched and page 3 is never requested. -/
theorem C7_pagination_stops (startedAt : Int) (p : Page) (rest : List Page)
    (hne : rest ≠ []) :
    (2 ≤ (getAllStackEvents startedAt (p :: rest)).2 ↔
      (p.nextToken.isSome = true ∧ ∀ e ∈ p.stackEvents, ¬ e.timestamp < startedAt)) ∧
    (∀ p1 p2 p3 : Page, p1.nextToken.isSome = true →
      (∀ e ∈ p1.stackEvents, ¬ e.timestamp < startedAt) →
      (∃ e ∈ p2.stackEvents, e.timestamp < startedAt) →
      (getAllStackEvents startedAt [p1, p2, p3]).2 = 2 ∧
      (getAllStackEvents startedAt [p1, p2, p3]).1 =
        p1.stackEvents ++ p2.stackEvents) := by
  constructor
  · by_cases hc : (p.nextToken.isSome && !(allRelevantEventsLoaded startedAt p.stackEvents)) = true
    · rw [← continue_cond_iff]
      have hcount : (getAllStackEvents startedAt (p :: rest)).2 =
          (getAllStackEvents startedAt rest).2 + 1 := by
        simp only [getAllStackEvents, if_pos hc]
      rw [hcount]
      obtain ⟨q, qs, rfl⟩ : ∃ q qs, rest = q :: qs := by
        cases rest with
        | nil => exact absurd rfl hne
        | cons q qs => exact ⟨q, qs, rfl⟩
      have hpos := getAllStackEvents_snd_pos startedAt q qs
      constructor
      · intro _
        exact hc
      · intro _
        omega
    · rw [← continue_cond_iff]
      have hcount : (getAllStackEvents startedAt (p :: rest)).2 = 1 := by
        simp only [getAllStackEvents, if_neg hc]
      rw [hcount]
      constructor
      · intro hge
        omega
      · intro ht
        exact absurd ht hc
  · intro p1 p2 p3 h1 h2 h3
    have hc1 : (p1.nextToken.isSome && !(allRelevantEventsLoaded startedAt p1.stackEvents)) = true :=
      (continue_cond_iff startedAt p1).mpr ⟨h1, h2⟩
    have hc2 : ¬ (p2.nextToken.isSome && !(allRelevantEventsLoaded startedAt p2.stackEvents)) = true := by
      intro hc
      rcases (continue_cond_iff startedAt p2).mp hc with ⟨_, hall⟩
      rcases h3 with ⟨e, he, hlt⟩
      exact hall e he hlt
    refine ⟨?_, ?_⟩ <;> simp only [getAllStackEvents, if_pos hc1, if_neg hc2]

/-- C7 witness: a concrete three-page log where page 1 is all post-start with a
token and page 2 contains one pre-start event stops after two pages. -/
theorem C7_pagination_stops_witness :
    (getAllStackEvents 10
      [⟨[⟨"e3", "AWS::CloudFormation::Stack", "demo", "UPDATE_COMPLETE", none, 30⟩], some "t1"⟩,
       ⟨[⟨"e1", "AWS::CloudFormation::Stack", "demo", "CREATE_COMPLETE", none, 5⟩], some "t2"⟩,
       ⟨[⟨"e0", "AWS::CloudFormation::Stack", "demo", "CREATE_IN_PROGRESS", none, 1⟩], none⟩]).2 = 2 ∧
    (getAllStackEvents 10
      [⟨[⟨"e3", "AWS::CloudFormation::Stack", "demo", "UPDATE_COMPLETE", none, 30⟩], some "t1"⟩,
       ⟨[⟨"e1", "AWS::CloudFormation::Stack", "demo", "CREATE_COMPLETE", none, 5⟩], some "t2"⟩,
       ⟨[⟨"e0", "AWS::CloudFormation::Stack", "demo", "CREATE_IN_PROGRESS", none, 1⟩], none⟩]).1 =
      [⟨"e3", "AWS::CloudFormation::Stack", "demo", "UPDATE_COMPLETE", none, 30⟩] ++
      [⟨"e1", "AWS::CloudFormation::Stack", "demo", "CREATE_COMPLETE", none, 5⟩] :=
  (C7_pagination_stops 10
      ⟨[⟨"e3", "AWS::CloudFormation::Stack", "demo", "UPDATE_COMPLETE", none, 30⟩], some "t1"⟩
      [⟨[⟨"e1", "AWS::CloudFormation::Stack", "demo", "CREATE_COMPLETE", none, 5⟩], some "t2"⟩,
       ⟨[⟨"e0", "AWS::CloudFormation::Stack", "demo", "CREATE_IN_PROGRESS", none, 1⟩], none⟩]
      (by decide)).2
    ⟨[⟨"e3", "AWS::CloudFormation::Stack", "demo", "UPDATE_COMPLETE", none, 30⟩], some "t1"⟩
    ⟨[⟨"e1", "AWS::CloudFormation::Stack", "demo", "CREATE_COMPLETE", none, 5⟩], some "t2"⟩
    ⟨[⟨"e0", "AWS::CloudFormation::Stack", "demo", "CREATE_IN_PROGRESS", none, 1⟩], none⟩
    (by decide) (by decide) (by decide)

/-! C9. -/

/-- C9 (confirmed): with a limit set, the survivors of the pattern/age filter are
sorted ascending by creation time and exactly the oldest `limit` of them are
deleted; for three matching stale candidates T1 < T2 < T3 and limit 2, exactly
the T1 and T2 candidates receive delete calls, in that order, and T3 does not.
Also, the number of deletes never exceeds a (set) limit. -/
theorem C9_cleanup_limit (nameMatches : String → Bool) (now minutesOld : Int)
    (n1 n2 n3 : String) (t1 t2 t3 : Int)
    (h12 : t1 < t2) (h23 : t2 < t3) (hold : t3 < now - minutesOld * 60000)
    (hm1 : nameMatches n1 = true) (hm2 : nameMatches n2 = true)
    (hm3 : nameMatches n3 = true) :
    cleanupDeletes false nameMatches now minutesOld (some 2)
      [⟨n2, t2⟩, ⟨n3, t3⟩, ⟨n1, t1⟩] = [n1, n2] ∧
    (∀ (l : List StackSummary) (k : Nat), k ≠ 0 →
      (cleanupDeletes false nameMatches now minutesOld (some k) l).length ≤ k) := by
  constructor
  · have hfil : cleanupSurvivors nameMatches now minutesOld
        [⟨n2, t2⟩, ⟨n3, t3⟩, ⟨n1, t1⟩] = [⟨n2, t2⟩, ⟨n3, t3⟩, ⟨n1, t1⟩] := by
      unfold cleanupSurvivors
      have c1 : (nameMatches n1 && decide (t1 < now - minutesOld * 60000)) = true := by
        rw [hm1, Bool.true_and]
        exact decide_eq_true (by omega)
      have c2 : (nameMatches n2 && decide (t2 < now - minutesOld * 60000)) = true := by
        rw [hm2, Bool.true_and]
        exact decide_eq_true (by omega)
      have c3 : (nameMatches n3 && decide (t3 < now - minutesOld * 60000)) = true := by
        rw [hm3, Bool.true_and]
        exact decide_eq_true (by omega)
      simp only [List.filter_cons, c1, c2, c3, if_pos, List.filter_nil]
    have hsort : List.insertionSort
        (fun a b : StackSummary => a.creationTime ≤ b.creationTime)
        [⟨n2, t2⟩, ⟨n3, t3⟩, ⟨n1, t1⟩] = [⟨n1, t1⟩, ⟨n2, t2⟩, ⟨n3, t3⟩] := by
      have a31 : ¬ (t3 ≤ t1) := by omega
      have a21 : ¬ (t2 ≤ t1) := by omega
      have a23 : t2 ≤ t3 := by omega
      simp [List.insertionSort, List.orderedInsert, a31, a21, a23]
    have h2 : (2 : Nat) ≠ 0 := by omega
    unfold cleanupDeletes
    rw [if_neg Bool.false_ne_true]
    simp only [cleanupSelected, hfil, if_pos h2]
    rw [hsort]
    rfl
  · intro l k hk
    unfold cleanupDeletes
    rw [if_neg Bool.false_ne_true, List.length_map]
    simp only [cleanupSelected, if_pos hk]
    exact List.length_take_le _ _

/-- C9 witness: a concrete cleanup run with three stale matching stacks and
limit 2 deletes exactly the two oldest. -/
theorem C9_cleanup_limit_witness :
    cleanupDeletes false (fun _ => true) 1000000 1 (some 2)
      [⟨"b", 2⟩, ⟨"c", 3⟩, ⟨"a", 1⟩] = ["a", "b"] :=
  (C9_cleanup_limit (fun _ => true) 1000000 1 "a" "b" "c" 1 2 3
      (by decide) (by decide) (by decide) rfl rfl rfl).1

/-! C8 and C10. -/

/-- Under pairwise-distinct lowered keys, `find?` by lowered key returns exactly
the member pair with that lowered key. -/
theorem find?_lowered_of_mem {ps : JsObj} {k v L : String}
    (hnd : (ps.map (fun q => jsToLower q.1)).Nodup)
    (hkv : (k, v) ∈ ps) (hL : jsToLower k = L) :
    ps.find? (fun q => jsToLower q.1 == L) = some (k, v) := by
  induction ps with
  | nil => simp at hkv
  | cons q qs ih =>
    rcases List.mem_cons.mp hkv with heq | hmem
    · rw [← heq]
      exact List.find?_cons_of_pos _ (by simp [hL])
    · have hq : jsToLower q.1 ≠ L := by
        intro he
        have hin : L ∈ qs.map (fun q => jsToLower q.1) :=
          List.mem_map.mpr ⟨(k, v), hmem, hL⟩
        have hn := (List.nodup_cons.mp hnd).1
        apply hn
        show jsToLower q.1 ∈ qs.map (fun q => jsToLower q.1)
        rw [he]
        exact hin
      rw [List.find?_cons_of_neg _ (by simp [hq])]
      exact ih (List.nodup_cons.mp hnd).2 hmem

/-- C8 (corrected): when the caller supplies at least one parameter and caller
keys are distinct after lower-casing, the normalized list has exactly one entry
per declared parameter, in declaration order, whose value is the caller's
case-insensitively matching value when that value is non-empty and otherwise the
declared default — equivalently, the code's mutation-based lookup agrees with
the spec's case-insensitive lookup combined with JavaScript falsy fallback.  The
claim's concrete scenario holds. -/
theorem C8_normalize_refines (tp : List TemplateParam) (ps : JsObj)
    (hne : ps ≠ []) (hnd : (ps.map (fun q => jsToLower q.1)).Nodup) :
    normalizeParams tp ps =
      tp.map (fun p =>
        ⟨p.parameterKey, jsOrDefault (specLookup ps p.parameterKey) p.defaultValue⟩) ∧
    normalizeParams [⟨"Env", some "dev"⟩, ⟨"Region", some "us-east-1"⟩]
      [("Env", "prod")] =
      [⟨"Env", some "prod"⟩, ⟨"Region", some "us-east-1"⟩] := by
  constructor
  · obtain ⟨q, qs, rfl⟩ : ∃ q qs, ps = q :: qs := by
      cases ps with
      | nil => exact absurd rfl hne
      | cons q qs => exact ⟨q, qs, rfl⟩
    unfold normalizeParams
    rw [if_neg (by simp)]
    apply List.map_congr_left
    intro p _
    congr 1
    rw [objGet_lowerKeys (q :: qs) hnd p.parameterKey]
    rfl
  · decide

/-- C8 witness: the refinement applied to the claim's scenario yields the
expected merged parameter list. -/
theorem C8_normalize_refines_witness :
    normalizeParams [⟨"Env", some "dev"⟩, ⟨"Region", some "us-east-1"⟩]
      [("Env", "prod")] =
      [⟨"Env", some "prod"⟩, ⟨"Region", some "us-east-1"⟩] := by
  have h := (C8_normalize_refines
      [⟨"Env", some "dev"⟩, ⟨"Region", some "us-east-1"⟩]
      [("Env", "prod")] (by decide) (by decide)).1
  rw [h]
  decide

/-- C8 counterexample: a supplied empty-string value is replaced by the declared
default (the claim requires the caller's value whenever a matching key is
supplied), and an empty caller map yields an empty normalized list rather than
one entry per declared parameter. -/
theorem C8_counterexample :
    normalizeParams [⟨"Env", some "dev"⟩] [("Env", "")] = [⟨"Env", some "dev"⟩] ∧
    normalizeParams [⟨"Env", some "dev"⟩] [("Env", "")] ≠ [⟨"Env", some ""⟩] ∧
    normalizeParams [⟨"Env", some "dev"⟩] [] = [] := by decide

/-- C10 (confirmed): for a declared parameter matched case-insensitively by a
supplied caller key, an empty (falsy) supplied value yields the declared default
in the normalized output, and a non-empty supplied value yields that value. -/
theorem C10_falsy_value_uses_default (tp : List TemplateParam) (ps : JsObj)
    (p : TemplateParam) (hp : p ∈ tp)
    (hnd : (ps.map (fun q => jsToLower q.1)).Nodup)
    (k v : String) (hkv : (k, v) ∈ ps)
    (hmatch : jsToLower k = jsToLower p.parameterKey) :
    (v = "" → (⟨p.parameterKey, p.defaultValue⟩ : CfParam) ∈ normalizeParams tp ps) ∧
    (v ≠ "" → (⟨p.parameterKey, some v⟩ : CfParam) ∈ normalizeParams tp ps) := by
  have hval : objGet (lowerKeys ps) (jsToLower p.parameterKey) = some v := by
    rw [objGet_lowerKeys ps hnd p.parameterKey, find?_lowered_of_mem hnd hkv hmatch]
    rfl
  obtain ⟨q, qs, rfl⟩ : ∃ q qs, ps = q :: qs := by
    cases ps with
    | nil => simp at hkv
    | cons q qs => exact ⟨q, qs, rfl⟩
  constructor
  · intro hv
    unfold normalizeParams
    rw [if_neg (by simp)]
    refine List.mem_map.mpr ⟨p, hp, ?_⟩
    congr 1
    rw [hval, hv]
    rfl
  · intro hv
    unfold normalizeParams
    rw [if_neg (by simp)]
    refine List.mem_map.mpr ⟨p, hp, ?_⟩
    congr 1
    rw [hval]
    simp [jsOrDefault, hv]

/-- C10 witness: caller `Env=""` with declared default `dev` normalizes to the
default, and caller `Env="prod"` normalizes to `prod`. -/
theorem C10_falsy_value_uses_default_witness :
    (⟨"Env", some "dev"⟩ : CfParam) ∈
      normalizeParams [⟨"Env", some "dev"⟩] [("Env", "")] :=
  (C10_falsy_value_uses_default [⟨"Env", some "dev"⟩] [("Env", "")]
      ⟨"Env", some "dev"⟩ (by decide) (by decide) "Env" "" (by decide) rfl).1 rfl


end Cfn
